import Mathlib

/-
Verification of the dsdk persistor layer (src/dsdk/persistor.py).

The Python code is shallowly embedded: SQL text is `List Char`, Python
exceptions are explicit error values, and the context-manager control flow
of `commit` / `rollback` becomes a pure function from the scoped block's
outcome to the trace of connection events plus the propagated outcome.
-/

namespace DSDK

/-- Python exception classes that the persistor code can raise or catch
while probing a table: `ValueError` (bad identifier, bad unpack),
`AssertionError` (the `assert n == 1` in `check`), and an abstract
driver/backend error raised by `cur.execute`. -/
inductive PyExc where
  | valueError
  | assertionError
  | driverError
deriving DecidableEq, Repr, Fintype

/-- Errors produced by `df_from_query_by_ids`; both are Python
`ValueError`s, distinguished by their message. -/
inductive PyError where
  | valueError (msg : List Char)
deriving DecidableEq, Repr

/- ----------------------------------------------------------------- -/
/- Transaction scope manager: `AbstractPersistor.commit` / `rollback` -/
/- ----------------------------------------------------------------- -/

/-- Connection-level events observable while a transaction scope runs:
the `with self.connect()` entry and exit, the `with self.cursor(con)`
entry and exit, `con.commit()`, `con.rollback()`, and the structured log
records emitted after commit and rollback. -/
inductive TxEvent where
  | conOpen
  | curOpen
  | curClose
  | commit
  | rollback
  | logCommit
  | logRollback
  | conClose
deriving DecidableEq, Repr

/-- Embedding of `AbstractPersistor.commit`.  The caller's scoped block is
summarised by its outcome `r : Except ε α` (`ok` for normal completion,
`error` for any raised `BaseException`).  The body is
`try: with cursor: yield; con.commit(); log except BaseException:
con.rollback(); log; raise`, so a normal block is followed by exactly one
`commit`, and a raising block by exactly one `rollback` and a bare
re-`raise` of the same exception. -/
def commitScope (r : Except ε α) : List TxEvent × Except ε α :=
  match r with
  | Except.ok a =>
      ([TxEvent.conOpen, TxEvent.curOpen, TxEvent.curClose,
        TxEvent.commit, TxEvent.logCommit, TxEvent.conClose],
       Except.ok a)
  | Except.error e =>
      ([TxEvent.conOpen, TxEvent.curOpen, TxEvent.curClose,
        TxEvent.rollback, TxEvent.logRollback, TxEvent.conClose],
       Except.error e)

/-- Embedding of `AbstractPersistor.rollback`: the block runs inside
`try: ... finally: con.rollback(); log`, so `rollback` happens exactly
once on every exit path and the block's outcome propagates unchanged. -/
def rollbackScope (r : Except ε α) : List TxEvent × Except ε α :=
  ([TxEvent.conOpen, TxEvent.curOpen, TxEvent.curClose,
    TxEvent.rollback, TxEvent.logRollback, TxEvent.conClose],
   r)

/-- Claim C1: under the commit scope, a block that completes normally
leads to exactly one `commit()` and no `rollback()`, and the value is
returned; a block that raises any `BaseException` leads to exactly one
`rollback()`, no `commit()`, and the original exception is re-raised
unchanged. -/
theorem commit_scope_correct {ε α : Type} (a : α) (e : ε) :
    ((commitScope (Except.ok a : Except ε α)).1.count TxEvent.commit = 1 ∧
     (commitScope (Except.ok a : Except ε α)).1.count TxEvent.rollback = 0 ∧
     (commitScope (Except.ok a : Except ε α)).2 = Except.ok a) ∧
    ((commitScope (Except.error e : Except ε α)).1.count TxEvent.rollback = 1 ∧
     (commitScope (Except.error e : Except ε α)).1.count TxEvent.commit = 0 ∧
     (commitScope (Except.error e : Except ε α)).2 = Except.error e) := by
  refine ⟨⟨?_, ?_, rfl⟩, ⟨?_, ?_, rfl⟩⟩ <;> rfl

/-- Claim C2: under the rollback scope, `rollback()` is invoked exactly
once whether the block completes normally or raises, `commit()` is never
invoked, and the block's outcome (value or exception) propagates
unchanged. -/
theorem rollback_scope_correct {ε α : Type} (r : Except ε α) :
    (rollbackScope r).1.count TxEvent.rollback = 1 ∧
    (rollbackScope r).1.count TxEvent.commit = 0 ∧
    (rollbackScope r).2 = r := by
  refine ⟨?_, ?_, rfl⟩ <;> rfl

/- ----------------------------------------------------------------- -/
/- Chunked query executor: `AbstractPersistor.df_from_query_by_ids`   -/
/- ----------------------------------------------------------------- -/

/-- Fuel-driven worker for `chunks`; the fuel is an upper bound on the
number of chunks (the input length suffices when `0 < size`). -/
def chunksFuel (size : Nat) : Nat → List α → List (List α)
  | _, [] => []
  | 0, _ :: _ => []
  | fuel + 1, x :: xs => (x :: xs).take size :: chunksFuel size fuel ((x :: xs).drop size)

/-- Modelled from the spec: the `chunks` utility (`src/dsdk/utils.py`,
not under `src/`): `chunks(sequence, size)` yields the successive
subsequences of at most `size` elements, preserving relative order
within and across chunks; an empty sequence yields no chunks.  A zero
`size` is an error in the original (zero step); the model returns no
chunks there, and every claim only uses a positive size. -/
def chunks (xs : List α) (size : Nat) : List (List α) :=
  if size = 0 then [] else chunksFuel size xs.length xs

theorem chunksFuel_join {size : Nat} (hs : 0 < size) :
    ∀ (fuel : Nat) (xs : List α), xs.length ≤ fuel →
      (chunksFuel size fuel xs).flatten = xs := by
  intro fuel
  induction fuel with
  | zero =>
      intro xs hlen
      cases xs with
      | nil => rfl
      | cons x xs => simp at hlen
  | succ fuel ih =>
      intro xs hlen
      cases xs with
      | nil => rfl
      | cons x xs =>
          have hdrop : ((x :: xs).drop size).length ≤ fuel := by
            simp only [List.length_drop, List.length_cons] at *
            omega
          simp only [chunksFuel, List.flatten_cons, ih _ hdrop,
            List.take_append_drop]

theorem chunks_join {size : Nat} (hs : 0 < size) (xs : List α) :
    (chunks xs size).flatten = xs := by
  have : size ≠ 0 := Nat.pos_iff_ne_zero.mp hs
  simp only [chunks, if_neg this]
  exact chunksFuel_join hs xs.length xs le_rfl

theorem chunksFuel_mem_length {size fuel : Nat} {xs : List α} :
    ∀ c ∈ chunksFuel size fuel xs, c.length ≤ size := by
  induction fuel generalizing xs with
  | zero =>
      intro c hc
      cases xs <;> simp [chunksFuel] at hc
  | succ fuel ih =>
      intro c hc
      cases xs with
      | nil => simp [chunksFuel] at hc
      | cons x xs =>
          simp only [chunksFuel, List.mem_cons] at hc
          rcases hc with h | h
          · subst h
            simp [Nat.min_le_left]
          · exact ih c h

theorem chunks_mem_length {size : Nat} {xs : List α} :
    ∀ c ∈ chunks xs size, c.length ≤ size := by
  intro c hc
  by_cases h : size = 0
  · simp [chunks, h] at hc
  · exact chunksFuel_mem_length c (by simpa [chunks, h] using hc)

theorem chunks_ne_nil {size : Nat} (hs : 0 < size) {xs : List α}
    (hx : xs ≠ []) : chunks xs size ≠ [] := by
  have : size ≠ 0 := Nat.pos_iff_ne_zero.mp hs
  cases xs with
  | nil => exact absurd rfl hx
  | cons x xs =>
      simp only [chunks, if_neg this, List.length_cons, chunksFuel]
      exact List.cons_ne_nil _ _

/-- One `cur.execute(query, parameters)` call performed by the chunk
loop: the chunk bound under the `ids` key, alongside the caller's other
parameters (the `parameters` dict spread into the binding). -/
structure ExecCall (ι : Type) (π : Type) where
  ids : List ι
  params : π
deriving DecidableEq, Repr

/-- Output of `df_from_query_by_ids`: the ordered list of statement
executions and either an error or the assembled rows with the column
names. -/
structure IdsQuery (ι ρ π : Type) where
  executions : List (ExecCall ι π)
  result : Except PyError (List ρ × List (List Char))
deriving Repr

/-- Embedding of `AbstractPersistor.df_from_query_by_ids`.  The cursor is
summarised by `fetch`, the rows `cur.fetchall()` yields for a chunk, and
`descr`, the column names `cur.description` exposes after executing a
chunk.  Per source: one execution per chunk with `ids` bound to the
chunk; partial frames are kept only for chunks with at least one row; if
the loop never ran (`chunk is None`) a `ValueError` rejects the empty
`ids`; the frames are concatenated (`pandas.concat` raises a
`ValueError` on an empty frame list) and the columns come from the last
executed cursor description. -/
def df_from_query_by_ids (fetch : List ι → List ρ)
    (descr : List ι → List (List Char)) (parameters : π)
    (ids : List ι) (size : Nat) : IdsQuery ι ρ π :=
  let cs := chunks ids size
  let dfs := (cs.map fetch).filter (fun r => !r.isEmpty)
  { executions := cs.map (fun c => ⟨c, parameters⟩),
    result :=
      if cs.isEmpty then
        Except.error (PyError.valueError "Parameter ids must not be empty".data)
      else if dfs.isEmpty then
        Except.error (PyError.valueError "No objects to concatenate".data)
      else
        Except.ok (dfs.flatten,
          match cs.getLast? with
          | some c => descr c
          | none => []) }

/-- Claim C4: calling `df_from_query_by_ids` with an empty `ids`
sequence fails with the invalid-argument `ValueError` and performs no
statement execution at all. -/
theorem df_from_query_by_ids_empty {ι ρ π : Type}
    (fetch : List ι → List ρ) (descr : List ι → List (List Char))
    (parameters : π) (size : Nat) :
    (df_from_query_by_ids fetch descr parameters ([] : List ι) size).executions
        = [] ∧
    (df_from_query_by_ids fetch descr parameters ([] : List ι) size).result
        = Except.error
            (PyError.valueError "Parameter ids must not be empty".data) := by
  have hnil : chunks ([] : List ι) size = [] := by
    by_cases h : size = 0 <;> simp [chunks, h, chunksFuel]
  constructor <;> simp [df_from_query_by_ids, hnil]

theorem filter_nonempty_flatten {ρ : Type} (L : List (List ρ)) :
    (L.filter (fun r => !r.isEmpty)).flatten = L.flatten := by
  induction L with
  | nil => rfl
  | cons r L ih =>
      by_cases h : r.isEmpty
      · have hr : r = [] := List.isEmpty_iff.mp h
        simp [List.filter_cons, h, hr, ih]
      · simp [List.filter_cons, h, ih]

/-- Claim C5: for a non-empty `ids`, `df_from_query_by_ids` executes one
statement per chunk, in chunk order, with the chunk bound as the `ids`
parameter alongside the other parameters; the chunks partition `ids` in
order with each chunk at most `size` long; when at least one chunk
yields rows, the result is the concatenation of all chunks' rows with
column names from the cursor description after the last execution; and
25 ids with chunk size 10 give exactly the chunk sizes `[10, 10, 5]`. -/
theorem df_from_query_by_ids_chunked {ι ρ π : Type}
    (fetch : List ι → List ρ) (descr : List ι → List (List Char))
    (parameters : π) (ids : List ι) (size : Nat) (last : List ι)
    (hs : 0 < size) (hne : ids ≠ [])
    (hlast : (chunks ids size).getLast? = some last)
    (hrows : ∃ c ∈ chunks ids size, fetch c ≠ []) :
    (df_from_query_by_ids fetch descr parameters ids size).executions
        = (chunks ids size).map (fun c => ⟨c, parameters⟩) ∧
    ((df_from_query_by_ids fetch descr parameters ids size).executions.map
        ExecCall.ids).flatten = ids ∧
    (∀ e ∈ (df_from_query_by_ids fetch descr parameters ids size).executions,
        e.ids.length ≤ size) ∧
    (df_from_query_by_ids fetch descr parameters ids size).result
        = Except.ok (((chunks ids size).map fetch).flatten, descr last) ∧
    (chunks (List.range 25) 10).map List.length = [10, 10, 5] := by
  have hcs : chunks ids size ≠ [] := chunks_ne_nil hs hne
  refine ⟨rfl, ?_, ?_, ?_, by decide⟩
  · show (((chunks ids size).map fun c =>
        (⟨c, parameters⟩ : ExecCall ι π)).map ExecCall.ids).flatten = ids
    rw [List.map_map]
    have : (ExecCall.ids ∘ fun c => (⟨c, parameters⟩ : ExecCall ι π))
        = fun c => c := rfl
    rw [this, List.map_id_fun']
    simpa using chunks_join hs ids
  · intro e he
    simp only [df_from_query_by_ids, List.mem_map] at he
    obtain ⟨c, hc, rfl⟩ := he
    exact chunks_mem_length c hc
  · have h1 : (chunks ids size).isEmpty = false := by
      simpa [List.isEmpty_iff] using hcs
    have h2 : (((chunks ids size).map fetch).filter
        (fun r => !r.isEmpty)).isEmpty = false := by
      rw [List.isEmpty_eq_false]
      intro hnil
      obtain ⟨c, hc, hfc⟩ := hrows
      have := (List.filter_eq_nil_iff.mp hnil) (fetch c)
        (List.mem_map_of_mem fetch hc)
      simp only [Bool.not_eq_true', Bool.not_eq_false,
        List.isEmpty_iff] at this
      exact hfc this
    simp only [df_from_query_by_ids, h1, h2, Bool.false_eq_true,
      if_false, hlast, filter_nonempty_flatten]

/-- Claim C10: for a non-empty `ids` where every executed chunk fetches
zero rows, `df_from_query_by_ids` does not return an empty frame: the
empty-ids guard does not fire (at least one execution happened) and the
concatenation of the empty list of partial frames raises pandas'
`ValueError`, so the call fails. -/
theorem df_from_query_by_ids_no_rows {ι ρ π : Type}
    (fetch : List ι → List ρ) (descr : List ι → List (List Char))
    (parameters : π) (ids : List ι) (size : Nat)
    (hs : 0 < size) (hne : ids ≠ [])
    (hempty : ∀ c ∈ chunks ids size, fetch c = []) :
    (df_from_query_by_ids fetch descr parameters ids size).executions ≠ [] ∧
    (df_from_query_by_ids fetch descr parameters ids size).result
        = Except.error
            (PyError.valueError "No objects to concatenate".data) := by
  have hcs : chunks ids size ≠ [] := chunks_ne_nil hs hne
  constructor
  · simp only [df_from_query_by_ids, ne_eq, List.map_eq_nil_iff]
    exact hcs
  · have h1 : (chunks ids size).isEmpty = false := by
      simpa [List.isEmpty_iff] using hcs
    have h2 : ((chunks ids size).map fetch).filter
        (fun r => !r.isEmpty) = [] := by
      rw [List.filter_eq_nil_iff]
      intro r hr
      obtain ⟨c, hc, rfl⟩ := List.mem_map.mp hr
      simp [hempty c hc]
    simp [df_from_query_by_ids, h1, h2]

/-- Witness for claim C5, at 25 ids and chunk size 10 with a cursor that
returns each chunk itself as its rows. -/
theorem df_from_query_by_ids_chunked_witness :
    (df_from_query_by_ids (fun c : List Nat => c)
        (fun _ => ([] : List (List Char))) (0 : Nat)
        (List.range 25) 10).result
      = Except.ok (List.range 25, ([] : List (List Char))) := by
  have h := df_from_query_by_ids_chunked (fun c : List Nat => c)
      (fun _ => ([] : List (List Char))) (0 : Nat) (List.range 25) 10
      ((List.range 25).drop 20) (by decide) (by decide) (by decide)
      ⟨(List.range 25).take 10, by decide, by decide⟩
  rw [h.2.2.2.1]
  rfl

/-- Witness for claim C10, at three ids, chunk size 2 and a cursor that
returns no rows for any chunk. -/
theorem df_from_query_by_ids_no_rows_witness :
    (df_from_query_by_ids (fun _ : List Nat => ([] : List Nat))
        (fun _ => ([] : List (List Char))) (0 : Nat) [1, 2, 3] 2).result
      = Except.error
          (PyError.valueError "No objects to concatenate".data) :=
  (df_from_query_by_ids_no_rows (fun _ => []) (fun _ => []) 0 [1, 2, 3] 2
    (by decide) (by decide) (fun c _ => rfl)).2

/- ----------------------------------------------------------------- -/
/- Identifier validation: `ALPHA_NUMERIC_DOT` and `extant`            -/
/- ----------------------------------------------------------------- -/

/-- First-character class of `ALPHA_NUMERIC_DOT`: `[a-zA-Z_]` (ASCII). -/
def isIdentStart (c : Char) : Bool := c.isAlpha || c = '_'

/-- Repeated-character class of `ALPHA_NUMERIC_DOT`: `[A-Za-z0-9_.]`. -/
def isIdentRest (c : Char) : Bool := c.isAlphanum || c = '_' || c = '.'

/-- Python `$` without MULTILINE: succeeds at the end of the string, or
just before a newline that is the string's last character. -/
def dollarMatches : List Char → Bool
  | [] => true
  | [c] => c = '\n'
  | _ :: _ :: _ => false

/-- Backtracking semantics of `[A-Za-z0-9_.]*$` applied at a position:
some prefix of `rest` consists of repeated-class characters and `$`
succeeds on the remaining suffix. -/
def starThenDollar (rest : List Char) : Bool :=
  (List.range (rest.length + 1)).any
    (fun k => (rest.take k).all isIdentRest && dollarMatches (rest.drop k))

/-- Embedding of `ALPHA_NUMERIC_DOT.match(table)`: Python `re.match` of
`^[a-zA-Z_][A-Za-z0-9_.]*$` anchored at the start, with Python's `$`
semantics. -/
def alphaNumericDotMatch : List Char → Bool
  | [] => false
  | c :: rest => isIdentStart c && starThenDollar rest

/-- Modelled from the spec's words, for comparison with the source's
matcher: a name "matches a strict identifier pattern
`^[A-Za-z_][A-Za-z0-9_.]*$`", read as an anchored full match of the
whole name. -/
def specIdentifier : List Char → Bool
  | [] => false
  | c :: rest => isIdentStart c && rest.all isIdentRest

theorem starThenDollar_iff (rest : List Char) :
    starThenDollar rest = true ↔
      (rest.all isIdentRest = true ∨
        (rest.getLast? = some '\n' ∧ rest.dropLast.all isIdentRest = true)) := by
  unfold starThenDollar
  rw [List.any_eq_true]
  constructor
  · rintro ⟨k, hk, hp⟩
    rw [Bool.and_eq_true] at hp
    obtain ⟨htake, hdollar⟩ := hp
    cases hdk : rest.drop k with
    | nil =>
        left
        rw [List.drop_eq_nil_iff] at hdk
        rwa [List.take_of_length_le hdk] at htake
    | cons c tl =>
        cases tl with
        | nil =>
            have hc : c = '\n' := by
              rw [hdk] at hdollar
              simpa [dollarMatches] using hdollar
            right
            have hsplit : rest.take k ++ [c] = rest := by
              rw [← hdk, List.take_append_drop]
            subst hc
            constructor
            · rw [← hsplit, List.getLast?_concat]
            · rw [← hsplit, List.dropLast_concat]
              exact htake
        | cons d tl' =>
            rw [hdk] at hdollar
            simp [dollarMatches] at hdollar
  · rintro (hall | ⟨hlast, hinit⟩)
    · refine ⟨rest.length, ?_, ?_⟩
      · simp
      · simp [List.take_length, List.drop_length, dollarMatches, hall]
    · obtain ⟨l, rfl⟩ := List.getLast?_eq_some_iff.mp hlast
      rw [List.dropLast_concat] at hinit
      refine ⟨l.length, ?_, ?_⟩
      · simp [List.mem_range]
        omega
      · rw [List.take_left, List.drop_left]
        simp [dollarMatches, hinit]

theorem starThenDollar_eq (rest : List Char) :
    starThenDollar rest
      = (rest.all isIdentRest ||
          (decide (rest.getLast? = some '\n')
            && rest.dropLast.all isIdentRest)) := by
  rw [Bool.eq_iff_iff]
  rw [show (starThenDollar rest = true) ↔ _ from starThenDollar_iff rest]
  simp only [Bool.or_eq_true, Bool.and_eq_true, decide_eq_true_eq]

theorem alphaNumericDot_eq_spec (s : List Char) :
    alphaNumericDotMatch s =
      (specIdentifier s ||
        (decide (s.getLast? = some '\n') && specIdentifier s.dropLast)) := by
  cases s with
  | nil => rfl
  | cons c rest =>
      cases rest with
      | nil =>
          simp only [alphaNumericDotMatch, starThenDollar_eq, specIdentifier]
          cases h : isIdentStart c <;>
            by_cases hc : c = '\n' <;> simp [h, hc, specIdentifier]
      | cons d tl =>
          simp only [alphaNumericDotMatch, starThenDollar_eq, specIdentifier,
            List.getLast?_cons_cons, List.dropLast_cons₂]
          cases h : isIdentStart c <;> simp [h]

/-- Modelled from the spec: `Asset` (`src/dsdk/asset.py`, not under
`src/`) is a read-only provider of named SQL template strings; only the
`extant` template, which accepts a `\x7btable\x7d` substitution slot, is
needed here. -/
structure Asset where
  extant : List Char
deriving DecidableEq, Repr

/-- Fuel-driven single-pattern text replacement; fuel bounds the number
of scanned positions (the text length suffices). -/
def replaceFuel (pat val : List Char) : Nat → List Char → List Char
  | _, [] => []
  | 0, s => s
  | fuel + 1, c :: rest =>
    if !pat.isEmpty && pat.isPrefixOf (c :: rest) then
      val ++ replaceFuel pat val fuel ((c :: rest).drop pat.length)
    else
      c :: replaceFuel pat val fuel rest

/-- Replace every occurrence of `pat` in `s` by `val`, left to right. -/
def replaceAll (pat val s : List Char) : List Char :=
  replaceFuel pat val s.length s

/-- Embedding of `self.sql.extant.format(table=table)` for templates
whose only replacement field is `\x7btable\x7d`. -/
def pyFormatTable (tmpl table : List Char) : List Char :=
  replaceAll "\x7btable\x7d".data table tmpl

/-- Embedding of `AbstractPersistor.extant`: reject the name with a
`ValueError` unless `ALPHA_NUMERIC_DOT` matches it, else substitute it
into the Asset's extant template. -/
def extant (sql : Asset) (table : List Char) : Except PyError (List Char) :=
  if alphaNumericDotMatch table then
    Except.ok (pyFormatTable sql.extant table)
  else
    Except.error (PyError.valueError
      ("Not a sql identifier: ".data ++ table ++ ".".data))

/-- Counterexample for claim C7: the name consisting of `a` followed by
a newline fails the spec's strict identifier pattern, yet `extant`
accepts it and builds a statement containing the raw newline, because
Python's `$` also matches just before a trailing newline. -/
theorem extant_newline_counterexample :
    specIdentifier "a\n".data = false ∧
    extant ⟨"select 1 from \x7btable\x7d".data⟩ "a\n".data
      = Except.ok "select 1 from a\n".data := by
  constructor
  · decide
  · rfl

/-- Claim C7 (amended): the source matcher accepts exactly the names
matching the spec's strict pattern plus those consisting of such a name
followed by one trailing newline (Python `$` semantics); every rejected
name fails with a `ValueError` naming the offending identifier and no
statement is built, and every accepted name is substituted into the
Asset's extant template unchanged. -/
theorem extant_amended (sql : Asset) (table : List Char) :
    alphaNumericDotMatch table
        = (specIdentifier table ||
            (decide (table.getLast? = some '\n') &&
              specIdentifier table.dropLast)) ∧
    (alphaNumericDotMatch table = false →
      extant sql table = Except.error (PyError.valueError
        ("Not a sql identifier: ".data ++ table ++ ".".data))) ∧
    (alphaNumericDotMatch table = true →
      extant sql table = Except.ok (pyFormatTable sql.extant table)) := by
  refine ⟨alphaNumericDot_eq_spec table, ?_, ?_⟩
  · intro h
    simp [extant, h]
  · intro h
    simp [extant, h]

/-- Witness for claim C7 (amended), at an accepted and a rejected
concrete name. -/
theorem extant_amended_witness :
    extant ⟨"select 1 from \x7btable\x7d".data⟩ "users".data
        = Except.ok "select 1 from users".data ∧
    extant ⟨"select 1 from \x7btable\x7d".data⟩ "bad name".data
        = Except.error (PyError.valueError
            ("Not a sql identifier: ".data ++ "bad name".data
              ++ ".".data)) := by
  constructor
  · have h := (extant_amended ⟨"select 1 from \x7btable\x7d".data⟩
        "users".data).2.2 (by decide)
    rw [h]
    rfl
  · exact (extant_amended ⟨"select 1 from \x7btable\x7d".data⟩
        "bad name".data).2.1 (by decide)

/- ----------------------------------------------------------------- -/
/- Existence checker: `AbstractPersistor.check`                       -/
/- ----------------------------------------------------------------- -/

/-- Outcome of the row loop `for row in cur: n, *_ = row; assert n == 1`
inside `check`: `unpackError` is the `ValueError` raised by unpacking an
empty row, `assertFail` the `AssertionError` from `assert n == 1`. -/
inductive RowScan where
  | pass
  | unpackError
  | assertFail
deriving DecidableEq, Repr

/-- Embedding of the row loop in `check`: each fetched row is unpacked
(`n, *_ = row`) and its first value asserted equal to `1`; the first
offending row raises.  Zero rows raise nothing. -/
def scanRows : List (List Int) → RowScan
  | [] => RowScan.pass
  | [] :: _ => RowScan.unpackError
  | (n :: _) :: rest => if n = 1 then scanRows rest else RowScan.assertFail

/-- A row acceptable to the loop body: non-empty with first value 1. -/
def rowOk : List Int → Bool
  | [] => false
  | n :: _ => n == 1

theorem scanRows_pass_iff (rows : List (List Int)) :
    scanRows rows = RowScan.pass ↔ rows.all rowOk = true := by
  induction rows with
  | nil => simp [scanRows]
  | cons r rest ih =>
      cases r with
      | nil => simp [scanRows, rowOk]
      | cons n tl =>
          by_cases h : n = 1
          · simp [scanRows, rowOk, h, ih]
          · simp [scanRows, rowOk, h]

/-- The exception, if any, raised by the body of the `try` in `check`
for one table: `self.extant(table)` (a `ValueError` on a bad name), then
`cur.execute(statement)` (summarised by `cur`, which may raise), then
the row loop.  `none` means the probe passed. -/
def probeExc (sql : Asset) (cur : List Char → Except PyExc (List (List Int)))
    (table : List Char) : Option PyExc :=
  match extant sql table with
  | Except.error _ => some PyExc.valueError
  | Except.ok stmt =>
      match cur stmt with
      | Except.error e => some e
      | Except.ok rows =>
          match scanRows rows with
          | RowScan.pass => none
          | RowScan.unpackError => some PyExc.valueError
          | RowScan.assertFail => some PyExc.assertionError

/-- Result of `check`: silent success, the aggregated `RuntimeError`
listing the failed tables, or an exception outside the caller-supplied
set propagating out of the loop. -/
inductive CheckResult where
  | ok
  | aggregated (errors : List (List Char))
  | uncaught (e : PyExc)
deriving DecidableEq, Repr

/-- Loop of `check`, carrying the `errors` accumulator; returns the list
of tables actually probed together with the result.  A probe exception
inside the caller-supplied set `excSet` appends the table to `errors`
and continues; one outside the set aborts the scan. -/
def checkGo (sql : Asset) (cur : List Char → Except PyExc (List (List Int)))
    (excSet : PyExc → Bool) :
    List (List Char) → List (List Char) → List (List Char) × CheckResult
  | [], errors =>
      ([], if errors.isEmpty then CheckResult.ok
           else CheckResult.aggregated errors)
  | t :: rest, errors =>
      match probeExc sql cur t with
      | none =>
          let r := checkGo sql cur excSet rest errors
          (t :: r.1, r.2)
      | some e =>
          if excSet e then
            let r := checkGo sql cur excSet rest (errors ++ [t])
            (t :: r.1, r.2)
          else ([t], CheckResult.uncaught e)

/-- Embedding of `AbstractPersistor.check` over the configured tables. -/
def check (sql : Asset) (cur : List Char → Except PyExc (List (List Int)))
    (excSet : PyExc → Bool) (tables : List (List Char)) :
    List (List Char) × CheckResult :=
  checkGo sql cur excSet tables []

theorem checkGo_spec (sql : Asset)
    (cur : List Char → Except PyExc (List (List Int)))
    (excSet : PyExc → Bool) :
    ∀ (tables errors : List (List Char)),
      (∀ t ∈ tables, ∀ e, probeExc sql cur t = some e → excSet e = true) →
      checkGo sql cur excSet tables errors =
        (tables,
          if (errors ++ tables.filter
              (fun t => (probeExc sql cur t).isSome)).isEmpty
          then CheckResult.ok
          else CheckResult.aggregated (errors ++ tables.filter
              (fun t => (probeExc sql cur t).isSome))) := by
  intro tables
  induction tables with
  | nil =>
      intro errors _
      simp [checkGo]
  | cons t rest ih =>
      intro errors h
      have hrest : ∀ t ∈ rest, ∀ e, probeExc sql cur t = some e →
          excSet e = true :=
        fun t ht e he => h t (List.mem_cons_of_mem _ ht) e he
      cases hp : probeExc sql cur t with
      | none =>
          simp only [checkGo, hp, ih errors hrest, List.filter_cons,
            Option.isSome_none, Bool.false_eq_true, if_false]
      | some e =>
          have he : excSet e = true := h t (List.mem_cons_self t rest) e hp
          simp only [checkGo, hp, he, if_true, ih (errors ++ [t]) hrest,
            List.filter_cons, Option.isSome_some, if_true,
            List.append_assoc, List.singleton_append]

/-- Claim C3: when every probe failure raises an exception inside the
caller-supplied set, `check` scans every configured table in order; a
failing table does not abort the scan; and the outcome is silent success
when no table failed, else the aggregated error carrying exactly the
failed tables. -/
theorem check_aggregates (sql : Asset)
    (cur : List Char → Except PyExc (List (List Int)))
    (excSet : PyExc → Bool) (tables : List (List Char))
    (h : ∀ t ∈ tables, ∀ e, probeExc sql cur t = some e → excSet e = true) :
    (check sql cur excSet tables).1 = tables ∧
    (check sql cur excSet tables).2 =
      (if (tables.filter (fun t => (probeExc sql cur t).isSome)).isEmpty
       then CheckResult.ok
       else CheckResult.aggregated
         (tables.filter (fun t => (probeExc sql cur t).isSome))) := by
  have := checkGo_spec sql cur excSet tables [] h
  rw [check, this]
  simp

/-- Witness for claim C3, at the spec's own scenario: tables
`patients` and `scores`, where the probe of `scores` raises a driver
error inside the supplied exception set. -/
theorem check_aggregates_witness :
    check ⟨"select 1 from \x7btable\x7d".data⟩
        (fun stmt => if stmt = "select 1 from scores".data
          then Except.error PyExc.driverError
          else Except.ok [[1]])
        (fun e => e == PyExc.driverError)
        ["patients".data, "scores".data]
      = (["patients".data, "scores".data],
         CheckResult.aggregated ["scores".data]) := by
  have h := check_aggregates ⟨"select 1 from \x7btable\x7d".data⟩
      (fun stmt => if stmt = "select 1 from scores".data
        then Except.error PyExc.driverError
        else Except.ok [[1]])
      (fun e => e == PyExc.driverError)
      ["patients".data, "scores".data] (by decide)
  have hpair : check ⟨"select 1 from \x7btable\x7d".data⟩
      (fun stmt => if stmt = "select 1 from scores".data
        then Except.error PyExc.driverError
        else Except.ok [[1]])
      (fun e => e == PyExc.driverError)
      ["patients".data, "scores".data]
    = (Prod.fst (check ⟨"select 1 from \x7btable\x7d".data⟩
        (fun stmt => if stmt = "select 1 from scores".data
          then Except.error PyExc.driverError
          else Except.ok [[1]])
        (fun e => e == PyExc.driverError)
        ["patients".data, "scores".data]),
       Prod.snd (check ⟨"select 1 from \x7btable\x7d".data⟩
        (fun stmt => if stmt = "select 1 from scores".data
          then Except.error PyExc.driverError
          else Except.ok [[1]])
        (fun e => e == PyExc.driverError)
        ["patients".data, "scores".data])) := rfl
  rw [hpair, h.1, h.2]
  decide

/-- Modelled from the claim's words, for comparison with the code's row
scan: the probe "passes only when the executed statement yields exactly
one row whose value is 1". -/
def specExactlyOneRowOne (rows : List (List Int)) : Bool :=
  match rows with
  | [r] => rowOk r
  | _ => false

/-- Counterexample for claim C8: the row loop of `check` accepts a
result of zero rows, and also one of two rows both valued 1, although
neither is "exactly one row whose value is 1"; the probe therefore
passes on result shapes the claim says must fail. -/
theorem probe_rows_counterexample :
    specExactlyOneRowOne [] = false ∧
    probeExc ⟨"select 1 from \x7btable\x7d".data⟩
        (fun _ => Except.ok []) "patients".data = none ∧
    specExactlyOneRowOne [[1], [1]] = false ∧
    probeExc ⟨"select 1 from \x7btable\x7d".data⟩
        (fun _ => Except.ok [[1], [1]]) "patients".data = none :=
  ⟨rfl, rfl, rfl, rfl⟩

/-- Claim C8 (amended): for a table whose statement builds and executes
successfully, the probe passes exactly when every returned row is
non-empty with first value 1 — so zero rows pass, several all-1 rows
pass, and any row with a different (or missing) first value makes the
probe fail. -/
theorem probe_pass_iff (sql : Asset)
    (cur : List Char → Except PyExc (List (List Int)))
    (table : List Char) (stmt : List Char) (rows : List (List Int))
    (hstmt : extant sql table = Except.ok stmt)
    (hexec : cur stmt = Except.ok rows) :
    (probeExc sql cur table = none ↔ rows.all rowOk = true) := by
  simp only [probeExc, hstmt, hexec]
  constructor
  · intro h
    rcases hs : scanRows rows with _ | _ | _ <;> rw [hs] at h
    · exact (scanRows_pass_iff rows).mp hs
    · cases h
    · cases h
  · intro h
    rw [(scanRows_pass_iff rows).mpr h]

/-- Witness for claim C8 (amended), at a statement returning two rows
both valued 1. -/
theorem probe_pass_iff_witness :
    probeExc ⟨"select 1 from \x7btable\x7d".data⟩
        (fun _ => Except.ok [[1], [1]]) "patients".data = none :=
  (probe_pass_iff ⟨"select 1 from \x7btable\x7d".data⟩
      (fun _ => Except.ok [[1], [1]]) "patients".data
      "select 1 from patients".data [[1], [1]] rfl rfl).mpr (by decide)

/- ----------------------------------------------------------------- -/
/- Keyed union query builder: `AbstractPersistor.union_all`           -/
/- ----------------------------------------------------------------- -/

/-- The separator `"\n    "` joining the per-key fragments. -/
def unionSep : List Char := "\n    ".data

/-- The per-key fragment template `"union all select %s"`. -/
def unionFragment : List Char := "union all select %s".data

/-- Modelled from the spec: the Safe Parameter Renderer (`cls.mogrify`,
implemented by each dialect, not under `src/`): it substitutes the
parameters into the `%s` placeholders of the fragment, in order, each
rendered by the dialect's escaping as `lit`, and returns the rendered
text. -/
def mogrifyChars (lit : ν → List Char) : List Char → List ν → List Char
  | [], _ => []
  | [c], _ => [c]
  | c :: d :: rest, vs =>
      if c == '%' && d == 's' then
        match vs with
        | v :: vs' => lit v ++ mogrifyChars lit rest vs'
        | [] => c :: mogrifyChars lit (d :: rest) vs
      else c :: mogrifyChars lit (d :: rest) vs

/-- Embedding of `AbstractPersistor.union_all`: one
`"union all select %s"` per key, joined with `"\n    "`, then mogrified
against the tuple of keys. -/
def union_all (lit : ν → List Char) (keys : List ν) : List Char :=
  mogrifyChars lit
    (List.intercalate unionSep (List.replicate keys.length unionFragment))
    keys

theorem mogrifyChars_no_percent (lit : ν → List Char) :
    ∀ (cs rest : List Char) (vs : List ν), (∀ c ∈ cs, c ≠ '%') →
      mogrifyChars lit (cs ++ rest) vs = cs ++ mogrifyChars lit rest vs := by
  intro cs
  induction cs with
  | nil => intro rest vs _; rfl
  | cons c cs ih =>
      intro rest vs h
      have hc : (c == '%') = false :=
        beq_eq_false_iff_ne.mpr (h c (List.mem_cons_self c cs))
      have hcs : ∀ x ∈ cs, x ≠ '%' :=
        fun x hx => h x (List.mem_cons_of_mem c hx)
      cases hrest : cs ++ rest with
      | nil =>
          rw [List.append_eq_nil] at hrest
          obtain ⟨h1, h2⟩ := hrest
          subst h1; subst h2
          rfl
      | cons d tl =>
          show mogrifyChars lit (c :: (cs ++ rest)) vs
            = c :: (cs ++ mogrifyChars lit rest vs)
          rw [hrest]
          show mogrifyChars lit (c :: d :: tl) vs
            = c :: (cs ++ mogrifyChars lit rest vs)
          simp only [mogrifyChars, hc, Bool.false_and, Bool.false_eq_true,
            if_false]
          rw [← hrest, ih rest vs hcs]

theorem mogrifyChars_placeholder (lit : ν → List Char)
    (rest : List Char) (v : ν) (vs : List ν) :
    mogrifyChars lit ('%' :: 's' :: rest) (v :: vs)
      = lit v ++ mogrifyChars lit rest vs := by
  cases rest <;> rfl

/-- The fragment prefix before the placeholder. -/
def unionSelect : List Char := "union all select ".data

theorem unionFragment_split :
    unionFragment = unionSelect ++ ['%', 's'] := by decide

theorem intercalate_one {α : Type} (sep a : List α) :
    List.intercalate sep [a] = a := by
  simp [List.intercalate, List.intersperse]

theorem intercalate_cons₂ {α : Type} (sep a b : List α)
    (t : List (List α)) :
    List.intercalate sep (a :: b :: t)
      = a ++ (sep ++ List.intercalate sep (b :: t)) := by
  simp [List.intercalate, List.intersperse, List.append_assoc]

theorem intercalate_cons_of_ne_nil {α : Type} (sep a : List α)
    {t : List (List α)} (h : t ≠ []) :
    List.intercalate sep (a :: t)
      = a ++ (sep ++ List.intercalate sep t) := by
  cases t with
  | nil => exact absurd rfl h
  | cons b t => exact intercalate_cons₂ sep a b t

theorem union_all_eq {ν : Type} (lit : ν → List Char) :
    ∀ keys : List ν,
      union_all lit keys
        = List.intercalate unionSep
            (keys.map (fun v => unionSelect ++ lit v)) := by
  intro keys
  induction keys with
  | nil => rfl
  | cons v keys ih =>
      cases keys with
      | nil =>
          show mogrifyChars lit
              (List.intercalate unionSep [unionFragment]) [v] = _
          rw [intercalate_one, unionFragment_split,
            mogrifyChars_no_percent lit unionSelect ['%', 's'] [v]
              (by decide),
            mogrifyChars_placeholder lit [] v []]
          show unionSelect ++ (lit v ++ []) = _
          rw [List.map_cons, List.map_nil, intercalate_one,
            List.append_nil]
      | cons w keys' =>
          show mogrifyChars lit (List.intercalate unionSep
              (List.replicate (w :: keys').length.succ unionFragment))
              (v :: w :: keys') = _
          rw [List.replicate_succ,
            intercalate_cons_of_ne_nil unionSep unionFragment
              (by simp [List.replicate])]
          nth_rewrite 1 [unionFragment_split]
          have hshape : (unionSelect ++ ['%', 's']) ++
              (unionSep ++ List.intercalate unionSep
                (List.replicate (w :: keys').length unionFragment))
            = unionSelect ++ ('%' :: 's' ::
                (unionSep ++ List.intercalate unionSep
                  (List.replicate (w :: keys').length unionFragment))) := by
            rw [List.append_assoc]
            rfl
          rw [hshape,
            mogrifyChars_no_percent lit unionSelect _ _ (by decide),
            mogrifyChars_placeholder,
            mogrifyChars_no_percent lit unionSep _ _ (by decide)]
          rw [show union_all lit (w :: keys')
              = mogrifyChars lit (List.intercalate unionSep
                  (List.replicate (w :: keys').length unionFragment))
                  (w :: keys') from rfl] at ih
          rw [ih]
          conv_rhs => rw [List.map_cons,
            intercalate_cons_of_ne_nil unionSep _ (by simp)]
          rw [List.append_assoc]

/-- Claim C6: for every key sequence, `union_all` produces exactly one
`union all select` fragment per key, joined in input order by the
separator, each fragment carrying the rendered literal of its key; in
particular three keys yield exactly three fragments, e.g. for the keys
1, 2, 3. -/
theorem union_all_fragments {ν : Type} (lit : ν → List Char)
    (keys : List ν) :
    union_all lit keys
      = List.intercalate unionSep
          (keys.map (fun v => unionSelect ++ lit v)) ∧
    (keys.map (fun v => unionSelect ++ lit v)).length = keys.length ∧
    union_all (fun c : Char => [c]) ['1', '2', '3']
      = ("union all select 1\n    union all select 2\n"
          ++ "    union all select 3").data :=
  ⟨union_all_eq lit keys, by simp, by decide⟩

/- ----------------------------------------------------------------- -/
/- Configuration round trip: `Persistor.as_yaml` / `_yaml_init`       -/
/- ----------------------------------------------------------------- -/

/-- Values appearing in the structured configuration mapping of a
persistor: strings, the integer port, the Asset reference, and the
governed table tuple. -/
inductive YamlValue where
  | str (s : List Char)
  | int (n : Int)
  | asset (a : Asset)
  | strTuple (ts : List (List Char))
deriving DecidableEq, Repr

/-- Embedding of the concrete `Persistor` construction parameters:
`database`, `host`, `password`, `port`, `username` plus the
`sql` Asset and `tables` carried by `AbstractPersistor.__init__`. -/
structure Persistor where
  database : List Char
  host : List Char
  password : List Char
  port : Int
  sql : Asset
  tables : List (List Char)
  username : List Char
deriving DecidableEq, Repr

/-- Embedding of `Persistor.as_yaml`: the mapping serialized under the
persistor's yaml tag, with the keys in the source's order. -/
def as_yaml (p : Persistor) : List (List Char × YamlValue) :=
  [("database".data, YamlValue.str p.database),
   ("host".data, YamlValue.str p.host),
   ("password".data, YamlValue.str p.password),
   ("port".data, YamlValue.int p.port),
   ("sql".data, YamlValue.asset p.sql),
   ("tables".data, YamlValue.strTuple p.tables),
   ("username".data, YamlValue.str p.username)]

/-- Keyword lookup in a constructed mapping. -/
def lookupYaml (m : List (List Char × YamlValue)) (k : List Char) :
    Option YamlValue :=
  (m.find? (fun kv => kv.1 == k)).map (fun kv => kv.2)

/-- Embedding of `Persistor._yaml_init`:
`cls(**loader.construct_mapping(node))` — each constructor keyword is
looked up in the mapping and must carry a value of the right shape,
else construction fails. -/
def yaml_init (m : List (List Char × YamlValue)) : Option Persistor :=
  match lookupYaml m "database".data, lookupYaml m "host".data,
      lookupYaml m "password".data, lookupYaml m "port".data,
      lookupYaml m "sql".data, lookupYaml m "tables".data,
      lookupYaml m "username".data with
  | some (YamlValue.str d), some (YamlValue.str h),
    some (YamlValue.str pw), some (YamlValue.int pt),
    some (YamlValue.asset s), some (YamlValue.strTuple ts),
    some (YamlValue.str u) =>
      some { database := d, host := h, password := pw, port := pt,
             sql := s, tables := ts, username := u }
  | _, _, _, _, _, _, _ => none

/-- Claim C9: serializing a persistor configuration with `as_yaml` and
constructing a persistor back from the resulting mapping restores every
field — database, host, password, port, sql asset reference, table list
and username — unchanged. -/
theorem yaml_round_trip (p : Persistor) :
    yaml_init (as_yaml p) = some p := by
  rfl

end DSDK
